import Mathlib

/-
Verification of the `Result` core of this fp-ts-style library.

The shallow embedding below translates `src/src/Result.ts` into Lean:

* `Result<E, A>` (a tagged union with variants `Failure`/`Success`) becomes the
  inductive type `Result E A`.
* TypeScript union error types such as `Result<E1 | E2, B>` are instantiated at
  a single common error type `E` — the claims under verification never need two
  distinct error types at once.
* `ReadonlyArray` / `NonEmptyReadonlyArray` become `List`; a non-empty array is
  passed as an explicit head element plus the list of remaining elements
  (mirroring the source's `_.head(as)` / indices `1 ..< as.length` loop shape).
* Curried TypeScript functions become multi-argument Lean functions with the
  arguments in source order (e.g. `orElse(that)(self)` is `orElse that self`).
* The instance objects returned by `getValidatedApplicative` / `getValidatedAlt`
  become values of small structure types holding the same fields.

Definitions are translated from the source file; the few pieces of this
repository that are referenced by `Result.ts` but whose files are not present
(`Flattenable.ts`, `FlattenableRec.ts`, the `string`/`Semigroup` instance
helpers) are modelled from the specification and carry a doc comment saying so.
-/

namespace FpTs

/-- The model type of `src/src/Result.ts`: `type Result<E, A> = Failure<E> | Success<A>`.
The `failure` constructor carries the failure payload, `success` the success payload. -/
inductive Result (E A : Type) : Type where
  | failure (failure : E) : Result E A
  | success (success : A) : Result E A
  deriving DecidableEq, Repr

/-- Source `fail`: constructs a `Result` holding a `Failure` value. -/
def fail (e : E) : Result E A := Result.failure e

/-- Source `of` (the success constructor, "succeed"). -/
def of (a : A) : Result E A := Result.success a

/-- Source `isFailure` refinement. -/
def isFailure : Result E A → Bool
  | .failure _ => true
  | .success _ => false

/-- Source `isSuccess` refinement. -/
def isSuccess : Result E A → Bool
  | .failure _ => false
  | .success _ => true

/-- Source `mapBoth`: `isFailure(fa) ? fail(f(fa.failure)) : of(g(fa.success))`. -/
def mapBoth (f : E → G) (g : A → B) : Result E A → Result G B
  | .failure e => fail (f e)
  | .success a => of (g a)

/-- Modelled from the spec: `map = bifunctor.map(Bifunctor)` in the source, and the
generic `bifunctor.map` lives in `Bifunctor.ts`, which is not under src.  Per §4.2
of the spec, `map` transforms the Success payload and passes Failure through
unchanged; it is `mapBoth` with the identity on the failure side. -/
def map (g : A → B) : Result E A → Result E B := mapBoth id g

/-- Source `flatMap`: `isFailure(self) ? self : f(self.success)`. -/
def flatMap (f : A → Result E B) : Result E A → Result E B
  | .failure e => .failure e
  | .success a => f a

/-- Modelled from the spec: `ap = flattenable.ap(Flattenable)` in the source, and the
generic `flattenable.ap` lives in `Flattenable.ts`, which is not under src.  It is the
canonical derivation of `ap` from the `Flattenable` instance `{ map, flatMap }` of the
source: flat-map over the function side, then map the function over the argument side
(§4.4 of the spec gives the resulting fail-fast, left-to-right behaviour). -/
def ap (fa : Result E A) (fab : Result E (A → B)) : Result E B :=
  flatMap (fun f => map f fa) fab

/-- Source `orElse`: `isFailure(fa) ? that : fa` (argument order `orElse(that)(self)`). -/
def orElse (that : Result E A) (self : Result E A) : Result E A :=
  match self with
  | .failure _ => that
  | .success _ => self

/-- Source `separate`: outer Failure is duplicated into both components, an inner
Failure `b` yields `(of b, fail onEmpty)`, an inner Success `c` yields
`(fail onEmpty, of c)`. -/
def separate (onEmpty : E) : Result E (Result A B) → Result E A × Result E B
  | .failure e => (.failure e, .failure e)
  | .success (.failure b) => (of b, fail onEmpty)
  | .success (.success c) => (fail onEmpty, of c)

/-- The `Semigroup` interface of this library, with the curried `combine` of the
source: a call site `S.combine(that)(self)` is written `S.combine that self` here. -/
structure Semigroup (E : Type) : Type where
  combine : E → E → E

/-- Modelled from the spec: `pipe(string.Semigroup, S.intercalate(sep))` — the files
`string.ts` and `Semigroup.ts` are not under src.  Orientation of the curried
`combine` is fixed by the doctests inside `src/src/Result.ts` itself: in the
`getValidatedApplicative` example the two failures `'not a string'` (the earlier,
`self`/`fab` side) and `'not a number'` (the later, `that`/`fa` side) combine to
`'not a string, not a number'`, and the `getValidatedAlt` example gives the same
orientation; hence `combine that self = self ++ sep ++ that`. -/
def intercalateSemigroup (sep : String) : Semigroup String :=
  ⟨fun that self => self ++ sep ++ that⟩

/-- The shape of an `Applicative` instance object specialised to a concrete
container `F`, holding the same fields as the source instance records. -/
structure ApplicativeOn (F : Type → Type) : Type 1 where
  map : {A B : Type} → (A → B) → F A → F B
  ap : {A B : Type} → F A → F (A → B) → F B
  of : {A : Type} → A → F A

/-- Source `getValidatedApplicative`: its `ap` checks `fab` first, and when both
sides are failures returns `fail(Semigroup.combine(fa.failure)(fab.failure))`;
when one side fails that failure is returned; otherwise the function is applied. -/
def getValidatedApplicative (S : Semigroup E) : ApplicativeOn (Result E) where
  map := fun g => map g
  ap := fun fa fab =>
    match fab, fa with
    | .failure e1, .failure e2 => fail (S.combine e2 e1)
    | .failure e1, .success _ => .failure e1
    | .success _, .failure e2 => .failure e2
    | .success g, .success a => of (g a)
  of := fun a => of a

/-- The shape of an `Alt` instance object specialised to a concrete container `F`;
the field has the source argument order `orElse(that)(self)`. -/
structure AltOn (F : Type → Type) : Type 1 where
  orElse : {A : Type} → F A → F A → F A

/-- Source `getValidatedAlt`: `orElse(that)(self)` returns `self` when it is a
Success, otherwise `fail(Semigroup.combine(that.failure)(self.failure))` when
`that` is also a Failure, and otherwise `that`. -/
def getValidatedAlt (S : Semigroup E) : AltOn (Result E) where
  orElse := fun that self =>
    match self with
    | .success _ => self
    | .failure se =>
      match that with
      | .failure te => fail (S.combine te se)
      | .success _ => that

/-- Source `fromThrowable(f, onThrow)`: a host-language computation `() => A` that
may throw a value of type `T` is embedded as `Except T A` (`.ok` for a normal
return, `.error` for a throw); the `try`/`catch` of the source becomes the match. -/
def fromThrowable (f : Except T A) (onThrow : T → E) : Result E A :=
  match f with
  | .ok a => of a
  | .error x => fail (onThrow x)

/-- Source `liftThrowable`: lifts a function that may throw (here `α → Except T A`)
to one returning a `Result`, by delegating to `fromThrowable`. -/
def liftThrowable (f : α → Except T A) (onThrow : T → E) (a : α) : Result E A :=
  fromThrowable (f a) onThrow

/-- Source `Zip`: the successful empty tuple `of(_.emptyReadonlyArray)`. -/
def Zip : Result E (List B) := of []

/-- The `for` loop inside the source `traverseNonEmptyReadonlyArrayWithIndex`:
starting from index `i` with the successes collected so far in `out`, apply `f`
to each remaining element, returning the first Failure produced by `f` as-is and
otherwise pushing the unwrapped payload onto `out`. -/
def traverseLoop (f : Nat → A → Result E B) : Nat → List A → List B → Result E (List B)
  | _, [], out => of out
  | i, a :: rest, out =>
    match f i a with
    | .failure e => .failure e
    | .success b => traverseLoop f (i + 1) rest (out ++ [b])

/-- Source `traverseNonEmptyReadonlyArrayWithIndex`: the non-empty array is passed
as `head` (the source's `_.head(as)`) plus `tail` (indices `1 ..< as.length`);
`f(0, head)` runs first with an early return on Failure, then the loop. -/
def traverseNonEmptyReadonlyArrayWithIndex (f : Nat → A → Result E B)
    (head : A) (tail : List A) : Result E (List B) :=
  match f 0 head with
  | .failure e => .failure e
  | .success b => traverseLoop f 1 tail [b]

/-- Source `traverseReadonlyArrayWithIndex`: `_.isNonEmpty(as) ? g(as) : Zip`. -/
def traverseReadonlyArrayWithIndex (f : Nat → A → Result E B) : List A → Result E (List B)
  | [] => Zip
  | a :: rest => traverseNonEmptyReadonlyArrayWithIndex f a rest

/-- Source `traverseNonEmptyReadonlyArray`: drops the index (`flow(SK, f)`). -/
def traverseNonEmptyReadonlyArray (f : A → Result E B) (head : A) (tail : List A) :
    Result E (List B) :=
  traverseNonEmptyReadonlyArrayWithIndex (fun _ a => f a) head tail

/-- Source `traverseReadonlyArray`: drops the index (`flow(SK, f)`). -/
def traverseReadonlyArray (f : A → Result E B) (as : List A) : Result E (List B) :=
  traverseReadonlyArrayWithIndex (fun _ a => f a) as

/-- Source `sequenceReadonlyArray = traverseReadonlyArray(identity)`. -/
def sequenceReadonlyArray (as : List (Result E A)) : Result E (List A) :=
  traverseReadonlyArray id as

/-- Modelled from the spec: `flattenableRec.tailRec` lives in `FlattenableRec.ts`,
which is not under src.  Per §4.3/§9 of the spec it is an explicit trampoline
loop, and the call site in `Result.ts` fixes the step convention: a `failure`
step value means "loop again with this new state", a `success` step value means
"terminate with this answer".  The loop is made total with a fuel parameter;
`none` marks fuel exhaustion (the real loop running forever). -/
def tailRec (f : A → Result A B) : Nat → A → Option B
  | 0, _ => none
  | fuel + 1, a =>
    match f a with
    | .failure a2 => tailRec f fuel a2
    | .success b => some b

/-- The step function that the source `flatMapRec` passes to `tailRec`:
`isFailure(e) ? of(fail(e.failure)) : isFailure(e.success) ? fail(f(e.success.failure))
: of(of(e.success.success))`. -/
def flatMapRecStep (f : A → Result E (Result A B)) :
    Result E (Result A B) → Result (Result E (Result A B)) (Result E B)
  | .failure e => of (fail e)
  | .success (.failure a2) => fail (f a2)
  | .success (.success b) => of (of b)

/-- Source `flatMapRec`: `flow(f, tailRec(step))`, with the fuel of the modelled
`tailRec` threaded through. -/
def flatMapRec (f : A → Result E (Result A B)) (fuel : Nat) (a : A) : Option (Result E B) :=
  tailRec (flatMapRecStep f) fuel (f a)

/-- `SuccForall f i as bs` says that applying `f` along `as` with indices counting
up from `i` succeeds at every position and produces exactly the payloads `bs`,
in order. -/
def SuccForall (f : Nat → A → Result E B) : Nat → List A → List B → Prop
  | _, [], bs => bs = []
  | i, a :: rest, bs =>
    ∃ b bs2, f i a = .success b ∧ bs = b :: bs2 ∧ SuccForall f (i + 1) rest bs2

/-- `AllSucc f i as` says that applying `f` along `as` with indices counting up
from `i` succeeds at every position. -/
def AllSucc (f : Nat → A → Result E B) : Nat → List A → Prop
  | _, [] => True
  | i, a :: rest => (∃ b, f i a = .success b) ∧ AllSucc f (i + 1) rest

/-- A concrete index-aware step function on numbers, used to evaluate the
traversal theorems on explicit inputs: succeeds with `n + i` on elements below
ten and fails with `"big"` otherwise. -/
def fW : Nat → Nat → Result String Nat :=
  fun i n => if n < 10 then of (n + i) else fail "big"

theorem traverseLoop_succ (E A B : Type) (f : Nat → A → Result E B) :
    ∀ (rest : List A) (i : Nat) (out bs : List B),
      SuccForall f i rest bs → traverseLoop f i rest out = of (out ++ bs) := by
  intro rest
  induction rest with
  | nil =>
    intro i out bs h
    simp [SuccForall] at h
    simp [traverseLoop, h, of]
  | cons a rest ih =>
    intro i out bs h
    simp only [SuccForall] at h
    obtain ⟨b, bs2, hfa, hbs, hrec⟩ := h
    subst hbs
    simp only [traverseLoop, hfa]
    rw [ih (i + 1) (out ++ [b]) bs2 hrec]
    simp [of]

theorem traverseLoop_firstFail (E A B : Type) (f : Nat → A → Result E B) :
    ∀ (pre : List A) (i : Nat) (out : List B) (x : A) (suf : List A) (e : E),
      AllSucc f i pre → f (i + pre.length) x = .failure e →
      traverseLoop f i (pre ++ x :: suf) out = .failure e := by
  intro pre
  induction pre with
  | nil =>
    intro i out x suf e _ hx
    simp at hx
    simp [traverseLoop, hx]
  | cons a pre ih =>
    intro i out x suf e hall hx
    simp only [AllSucc] at hall
    obtain ⟨⟨b, hb⟩, hrest⟩ := hall
    simp only [List.cons_append, traverseLoop, hb]
    have hx2 : f (i + 1 + pre.length) x = .failure e := by
      have hlen : i + 1 + pre.length = i + (a :: pre).length := by
        simp [List.length_cons]
        omega
      rw [hlen]
      exact hx
    exact ih (i + 1) (out ++ [b]) x suf e hrest hx2

/-- Claim C3: the `ap` of `getValidatedApplicative(S)` combines the two failure
payloads via `S` when both sides fail (for a string-concatenation semigroup,
`ap(fail "b")(fail "a") = fail ("a" ++ sep ++ "b")`), returns the single failing
side unchanged when exactly one side fails, and applies the function when both
sides succeed. -/
theorem getValidatedApplicative_combines (E A B : Type) :
    (∀ (S : Semigroup E) (e1 e2 : E),
      (getValidatedApplicative S).ap (fail e2 : Result E A) (fail e1 : Result E (A → B)) =
        fail (S.combine e2 e1))
    ∧ (∀ sep : String,
      (getValidatedApplicative (intercalateSemigroup sep)).ap
          (fail "b" : Result String String) (fail "a" : Result String (String → String)) =
        fail ("a" ++ sep ++ "b"))
    ∧ (∀ (S : Semigroup E) (e1 : E) (a : A),
      (getValidatedApplicative S).ap (of a) (fail e1 : Result E (A → B)) = fail e1)
    ∧ (∀ (S : Semigroup E) (e2 : E) (g : A → B),
      (getValidatedApplicative S).ap (fail e2) (of g) = fail e2)
    ∧ (∀ (S : Semigroup E) (a : A) (g : A → B),
      (getValidatedApplicative S).ap (of a) (of g) = of (g a)) := by
  refine ⟨fun S e1 e2 => rfl, fun sep => rfl, fun S e1 a => rfl,
    fun S e2 g => rfl, fun S a g => rfl⟩

/-- Claim C4: the default `ap` is fail-fast and left-to-right — a failing `fab`
is returned regardless of `fa` (in particular `ap (fail e2) (fail e1) = fail e1`),
otherwise a failing `fa` is returned, otherwise the function is applied to the
payload. -/
theorem ap_fail_fast (E A B : Type) :
    (∀ (e1 : E) (fa : Result E A), ap fa (fail e1 : Result E (A → B)) = fail e1)
    ∧ (∀ e1 e2 : E, ap (fail e2 : Result E A) (fail e1 : Result E (A → B)) = fail e1)
    ∧ (∀ (e2 : E) (g : A → B), ap (fail e2) (of g) = fail e2)
    ∧ (∀ (a : A) (g : A → B), ap (of a) (of g : Result E (A → B)) = of (g a)) := by
  refine ⟨fun e1 fa => rfl, fun e1 e2 => rfl, fun e2 g => rfl, fun a g => rfl⟩

/-- Claim C5: `orElse(fallback)(self)` returns `self` unchanged when `self` is a
Success and otherwise returns `fallback` verbatim (even a failing fallback), so
under chaining the last failure wins; includes the three concrete examples of
the claim. -/
theorem orElse_last_failure_wins (E A : Type) :
    (∀ (that : Result E A) (a : A), orElse that (of a) = of a)
    ∧ (∀ (that : Result E A) (e : E), orElse that (fail e) = that)
    ∧ orElse (fail "b") (fail "a") = (fail "b" : Result String Nat)
    ∧ orElse (of 2) (fail "a") = (of 2 : Result String Nat)
    ∧ (∀ x : Result String Nat, orElse x (of 1) = of 1) := by
  refine ⟨fun that a => rfl, fun that e => rfl, rfl, rfl, fun x => rfl⟩

/-- Claim C6: one iteration of `flatMapRec(f)`: an outer Failure of the step
terminates the computation with that failure, a Success wrapping an inner
Failure continues the iteration at the new value, and a Success wrapping an
inner Success terminates with that answer (stated on the fuelled trampoline,
with one unit of fuel per loop iteration). -/
theorem flatMapRec_step_semantics (E A B : Type) (f : A → Result E (Result A B))
    (fuel : Nat) (a : A) :
    flatMapRec f (fuel + 1) a =
      match f a with
      | .failure e => some (fail e)
      | .success (.failure a2) => flatMapRec f fuel a2
      | .success (.success b) => some (of b) := by
  cases h : f a with
  | failure e => simp [flatMapRec, tailRec, flatMapRecStep, h, of, fail]
  | success r =>
    cases r with
    | failure a2 => simp [flatMapRec, tailRec, flatMapRecStep, h, of, fail]
    | success b => simp [flatMapRec, tailRec, flatMapRecStep, h, of, fail]

/-- Claim C7: `separate(e)` duplicates an outer Failure into both components,
sends a Success wrapping an inner Failure `b` to `(Success b, Failure e)`, and
sends a Success wrapping an inner Success `c` to `(Failure e, Success c)`. -/
theorem separate_cases (E A B : Type) (onEmpty : E) :
    (∀ e : E, separate onEmpty (fail e : Result E (Result A B)) = (fail e, fail e))
    ∧ (∀ b : A, separate onEmpty (of (fail b) : Result E (Result A B)) = (of b, fail onEmpty))
    ∧ (∀ c : B, separate onEmpty (of (of c) : Result E (Result A B)) = (fail onEmpty, of c)) := by
  refine ⟨fun e => rfl, fun b => rfl, fun c => rfl⟩

/-- Claim C8: `flatMap` short-circuits — `flatMap f (fail e) = fail e` for every
`f`, and `flatMap f (of a) = f a`. -/
theorem flatMap_short_circuit (E A B : Type) :
    (∀ (e : E) (f : A → Result E B), flatMap f (fail e) = fail e)
    ∧ (∀ (a : A) (f : A → Result E B), flatMap f (of a) = f a) := by
  refine ⟨fun e f => rfl, fun a f => rfl⟩

/-- Claim C9: `fromThrowable(f, onThrow)` returns `of (f ())` when `f` returns
normally and `fail (onThrow x)` when `f` throws `x` (so the thrown value never
escapes — the embedding is a total function), and `liftThrowable` merely
delegates to `fromThrowable`. -/
theorem fromThrowable_catches (T E A α : Type) (onThrow : T → E) :
    (∀ a : A, fromThrowable (Except.ok a) onThrow = of a)
    ∧ (∀ x : T, fromThrowable (Except.error x : Except T A) onThrow = fail (onThrow x))
    ∧ (∀ (g : α → Except T A) (u : α), liftThrowable g onThrow u = fromThrowable (g u) onThrow) := by
  refine ⟨fun a => rfl, fun x => rfl, fun g u => rfl⟩

/-- Claim C10: on the empty array the possibly-empty traversals return a Success
wrapping the empty array for every `f` (so `f` is never consulted), and likewise
for `sequenceReadonlyArray`. -/
theorem traverseReadonlyArray_empty (E A B : Type) :
    (∀ f : Nat → A → Result E B, traverseReadonlyArrayWithIndex f [] = of [])
    ∧ (∀ g : A → Result E B, traverseReadonlyArray g [] = of [])
    ∧ sequenceReadonlyArray ([] : List (Result E A)) = of [] := by
  refine ⟨fun f => rfl, fun g => rfl, rfl⟩

/-- Claim C2: the array-specialised traversal processes the sequence index by
index from left to right: when `f` succeeds everywhere the result is a Success
wrapping the ordered payloads, and when the sequence decomposes as a prefix on
which `f` succeeds followed by a first failing element, the result is that first
Failure unchanged — for every suffix, so the output does not depend on elements
after the first failing index. -/
theorem traverseNonEmptyReadonlyArrayWithIndex_spec (E A B : Type)
    (f : Nat → A → Result E B) (head : A) (tail : List A) :
    (∀ bs : List B, SuccForall f 0 (head :: tail) bs →
      traverseNonEmptyReadonlyArrayWithIndex f head tail = of bs)
    ∧ (∀ (pre : List A) (x : A) (suf : List A) (e : E),
      head :: tail = pre ++ x :: suf → AllSucc f 0 pre → f pre.length x = .failure e →
      traverseNonEmptyReadonlyArrayWithIndex f head tail = .failure e) := by
  constructor
  · intro bs h
    simp only [SuccForall] at h
    obtain ⟨b, bs2, hb, hbs, hrec⟩ := h
    subst hbs
    simp only [traverseNonEmptyReadonlyArrayWithIndex, hb]
    rw [traverseLoop_succ E A B f tail 1 [b] bs2 hrec]
    simp [of]
  · intro pre x suf e hdecomp hall hx
    cases pre with
    | nil =>
      simp at hdecomp
      obtain ⟨rfl, rfl⟩ := hdecomp
      simp at hx
      simp [traverseNonEmptyReadonlyArrayWithIndex, hx]
    | cons p pre2 =>
      simp at hdecomp
      obtain ⟨rfl, rfl⟩ := hdecomp
      simp only [AllSucc] at hall
      obtain ⟨⟨b, hb⟩, hrest⟩ := hall
      simp only [traverseNonEmptyReadonlyArrayWithIndex, hb]
      simp only [List.length_cons] at hx
      have hx2 : f (1 + pre2.length) x = .failure e := by
        rwa [Nat.add_comm]
      exact traverseLoop_firstFail E A B f pre2 1 [b] x suf e hrest hx2

/-- Witness for claim C2: the traversal theorem evaluated at concrete inputs —
all-success on `1, [2, 3]` and a first failure at index `1` on `1, [20, 3]`. -/
theorem traverseNonEmptyReadonlyArrayWithIndex_spec_witness :
    traverseNonEmptyReadonlyArrayWithIndex fW 1 [2, 3] = of [1, 3, 5]
    ∧ traverseNonEmptyReadonlyArrayWithIndex fW 1 [20, 3] = fail "big" :=
  ⟨(traverseNonEmptyReadonlyArrayWithIndex_spec String Nat Nat fW 1 [2, 3]).1 [1, 3, 5]
      ⟨1, [3, 5], rfl, rfl, 3, [5], rfl, rfl, 5, [], rfl, rfl, rfl⟩,
   (traverseNonEmptyReadonlyArrayWithIndex_spec String Nat Nat fW 1 [20, 3]).2 [1] 20 [3] "big"
      rfl ⟨⟨1, rfl⟩, trivial⟩ rfl⟩

/-- Claim C1 counterexample: with the intercalating string semigroup (binary
combination `l ++ sep ++ r`) and both sides failing, the source combines with
SELF's failure as the left operand — reproducing the doctest of
`getValidatedAlt` in Result.ts — and not, as the claim states, with the
fallback's failure as the left operand. -/
theorem getValidatedAlt_claim_order_cex :
    (getValidatedAlt (intercalateSemigroup ", ")).orElse
        (fail "not a number") (fail "not a string" : Result String Unit) =
      fail "not a string, not a number"
    ∧ (getValidatedAlt (intercalateSemigroup ", ")).orElse
        (fail "not a number") (fail "not a string" : Result String Unit) ≠
      fail ("not a number" ++ ", " ++ "not a string") := by
  exact ⟨rfl, by decide⟩

/-- Claim C1 (amended): when both `self` and `fallback` are Failure, the
`orElse` of `getValidatedAlt(S)` returns a Failure whose payload is the
semigroup combination taking SELF's failure as the left operand and the
fallback's failure as the right operand — the source's curried
`combine(fallbackFailure)(selfFailure)` — as the intercalating-semigroup
conjunct makes explicit; when `self` is a Success it is returned unchanged (the
fallback is not consulted), and when only `self` fails the fallback is returned. -/
theorem getValidatedAlt_spec (E A : Type) :
    (∀ (S : Semigroup E) (se te : E),
      (getValidatedAlt S).orElse (fail te) (fail se : Result E A) = fail (S.combine te se))
    ∧ (∀ (S : Semigroup E) (that : Result E A) (a : A),
      (getValidatedAlt S).orElse that (of a) = of a)
    ∧ (∀ (S : Semigroup E) (se : E) (b : A),
      (getValidatedAlt S).orElse (of b) (fail se) = of b)
    ∧ (∀ sep x y : String,
      (getValidatedAlt (intercalateSemigroup sep)).orElse
          (fail y) (fail x : Result String Unit) = fail (x ++ sep ++ y)) := by
  refine ⟨fun S se te => rfl, fun S that a => rfl, fun S se b => rfl, fun sep x y => rfl⟩

end FpTs
